/-
  Verification of `tensorboardX/summary.py` (tensorboard-pytorch).

  Shallow embedding conventions:
  * numpy float64 arrays are modelled as `List ℚ` (exact arithmetic in place of
    IEEE doubles); array shapes are carried separately in `NpArray`.
  * numpy's uniform binning (`np.histogram`) is modelled by its bin-index
    formula `min (bins-1) ⌊(x - lo)/(hi - lo) * bins⌋`, with values outside
    `[lo, hi]` excluded and the degenerate range `lo = hi` widened to
    `(lo - 1/2, hi + 1/2)` exactly as numpy does.
  * Python exceptions (`ValueError`, `AssertionError`, `struct.error`, an
    unbound local `NameError`) are modelled with `Except String`.
  * Python's `int(...)` cast truncates toward zero; `np.int32` wraps modulo 2^32.
  * External codecs (PIL, moviepy) and whether the moviepy modules can be
    imported are modelled by an explicit environment `CodecEnv`.
-/
import Mathlib

namespace TensorboardX

/-! ## Tag sanitizer (`_INVALID_TAG_CHARACTERS`, `_clean_tag`) -/

/-- Character class of the regex `[^/\w.-]` (written `[^` `-` `/` `\w` `\.` `]`
in the source) used in `_INVALID_TAG_CHARACTERS`: a character is kept iff it is
`-`, `/`, a word character (`[A-Za-z0-9_]`, the ASCII reading of `\w`) or `.`. -/
def isTagAllowed (c : Char) : Bool :=
  c = '-' || c = '/' || c.isAlpha || c.isDigit || c = '_' || c = '.'

/-- One regex-substitution step of `_INVALID_TAG_CHARACTERS.sub('_', name)`:
an illegal character is replaced by `_`. -/
def tagStep (c : Char) : Char :=
  if isTagAllowed c then c else '_'

/-- `_clean_tag` on the character list: substitute illegal characters, then
`lstrip('/')`. -/
def cleanChars (cs : List Char) : List Char :=
  (cs.map tagStep).dropWhile (fun c => c = '/')

/-- `_clean_tag(name)` for a non-`None` name (the `None` case of the source
returns `None` unchanged and is not needed by any claim). -/
def clean_tag (s : String) : String :=
  ⟨cleanChars s.data⟩

theorem isTagAllowed_tagStep (c : Char) : isTagAllowed (tagStep c) = true := by
  unfold tagStep
  by_cases h : isTagAllowed c
  · simp [h]
  · simp [h]
    decide

theorem mem_cleanChars_allowed {c : Char} {cs : List Char}
    (h : c ∈ cleanChars cs) : isTagAllowed c = true := by
  unfold cleanChars at h
  have hmem : c ∈ cs.map tagStep := (List.dropWhile_sublist _).mem h
  rcases List.mem_map.mp hmem with ⟨a, _, rfl⟩
  exact isTagAllowed_tagStep a

theorem head?_dropWhile_false {α : Type} (p : α → Bool) (l : List α) {a : α}
    (h : (l.dropWhile p).head? = some a) : p a = false := by
  induction l with
  | nil => simp at h
  | cons b t ih =>
    by_cases hb : p b
    · rw [List.dropWhile_cons_of_pos hb] at h
      exact ih h
    · rw [List.dropWhile_cons_of_neg hb] at h
      simp at h
      rw [← h]
      simpa using hb

theorem cleanChars_idem (cs : List Char) : cleanChars (cleanChars cs) = cleanChars cs := by
  have hmap : (cleanChars cs).map tagStep = cleanChars cs := by
    have : ∀ a ∈ cleanChars cs, tagStep a = a := by
      intro a ha
      unfold tagStep
      simp [mem_cleanChars_allowed ha]
    calc (cleanChars cs).map tagStep = (cleanChars cs).map id := List.map_congr_left this
      _ = cleanChars cs := List.map_id _
  show ((cleanChars cs).map tagStep).dropWhile (fun c => c = '/') = cleanChars cs
  rw [hmap]
  cases h : cleanChars cs with
  | nil => simp
  | cons a t =>
    have hhead : ((cs.map tagStep).dropWhile (fun c => c = '/')).head? = some a := by
      rw [show (cs.map tagStep).dropWhile (fun c => c = '/') = cleanChars cs from rfl, h]
      rfl
    have hpa := head?_dropWhile_false (fun c => c = '/') (cs.map tagStep) hhead
    rw [List.dropWhile_cons_of_neg (by simpa using hpa)]

/-- C1: tag sanitization is idempotent, its output uses only the characters
`A`..`Z`, `a`..`z`, `0`..`9`, `_`, `.`, `-`, `/`, and never begins with `/`. -/
theorem tag_sanitize_idempotent_charset (x : String) :
    clean_tag (clean_tag x) = clean_tag x ∧
    (∀ c ∈ (clean_tag x).data, isTagAllowed c = true) ∧
    (∀ c, (clean_tag x).data.head? = some c → c ≠ '/') := by
  refine ⟨?_, ?_, ?_⟩
  · show (⟨cleanChars (cleanChars x.data)⟩ : String) = ⟨cleanChars x.data⟩
    rw [cleanChars_idem]
  · intro c hc
    exact mem_cleanChars_allowed hc
  · intro c hc
    have := head?_dropWhile_false (fun c => c = '/') (x.data.map tagStep) hc
    intro hcontra
    subst hcontra
    simp at this

/-- C1 witness: the general theorem applied at the concrete tag `"//a b.c"`. -/
theorem tag_sanitize_idempotent_charset_witness :
    clean_tag (clean_tag "//a b.c") = clean_tag "//a b.c" ∧
    ('a' ∈ (clean_tag "//a b.c").data → isTagAllowed 'a' = true) :=
  ⟨(tag_sanitize_idempotent_charset "//a b.c").1,
   fun h => (tag_sanitize_idempotent_charset "//a b.c").2.1 'a' h⟩

/-! ## numpy model: min, max, uniform histogram -/

/-- `np.min` over a flattened array (raises on an empty array; the callers
modelled here only apply it to non-empty data). -/
def npMin : List ℚ → ℚ
  | [] => 0
  | x :: xs => xs.foldl min x

/-- `np.max` over a flattened array. -/
def npMax : List ℚ → ℚ
  | [] => 0
  | x :: xs => xs.foldl max x

/-- numpy widens a degenerate histogram range `lo = hi` to
`(lo - 0.5, hi + 0.5)`. -/
def npHistRange (lo hi : ℚ) : ℚ × ℚ :=
  if lo = hi then (lo - 1/2, hi + 1/2) else (lo, hi)

/-- The bin a value falls into under numpy uniform binning over `[lo, hi]`
with `bins` buckets: values outside the range are excluded (`none`), the rest
go to `min (bins-1) ⌊(x - lo) / (hi - lo) * bins⌋` (all bins are half-open
except the last, which includes `hi`). -/
def npBinIdx (lo hi : ℚ) (bins : ℕ) (x : ℚ) : Option ℕ :=
  if x < lo ∨ hi < x then none
  else some (min (bins - 1) (Int.toNat ⌊(x - lo) / (hi - lo) * (bins : ℚ)⌋))

/-- `np.histogram(values, bins)[0]` (the counts) for an already adjusted
non-degenerate range `[lo, hi]`. -/
def npHistogramCounts (values : List ℚ) (bins : ℕ) (lo hi : ℚ) : List ℕ :=
  (List.range bins).map (fun k => values.countP (fun x => npBinIdx lo hi bins x = some k))

/-- `np.histogram(values, bins)[1]` (the `bins + 1` bucket edges). -/
def npHistogramEdges (bins : ℕ) (lo hi : ℚ) : List ℚ :=
  (List.range (bins + 1)).map (fun (k : ℕ) => lo + (hi - lo) * (k : ℚ) / (bins : ℚ))

/-- `np.histogram(values, bins, range, weights)[0]`: per-bucket sums of the
weights of the values landing in each bucket. -/
def npHistogramWeighted (values ws : List ℚ) (bins : ℕ) (lo hi : ℚ) : List ℚ :=
  (List.range bins).map (fun k =>
    ((values.zip ws).map (fun p => if npBinIdx lo hi bins p.1 = some k then p.2 else 0)).sum)

/-! ## `make_histogram` -/

/-- The `HistogramProto` fields filled in by `make_histogram`. -/
structure HistogramProto where
  min : ℚ
  max : ℚ
  num : ℕ
  sum : ℚ
  sum_squares : ℚ
  bucket_limit : List ℚ
  bucket : List ℕ
deriving DecidableEq, Repr

/-- The (adjusted) binning range `np.histogram` uses for `make_histogram`:
the data range `[min, max]`, widened when degenerate. -/
def histLoHi (values : List ℚ) : ℚ × ℚ :=
  npHistRange (npMin values) (npMax values)

/-- The untrimmed counts `counts` of `make_histogram`. -/
def histCountsOf (values : List ℚ) (bins : ℕ) : List ℕ :=
  npHistogramCounts values bins (histLoHi values).1 (histLoHi values).2

/-- The untrimmed upper limits `limits = limits[1:]` of `make_histogram`
(the bucket edges with the leftmost edge dropped). -/
def histLimitsOf (values : List ℚ) (bins : ℕ) : List ℚ :=
  (npHistogramEdges bins (histLoHi values).1 (histLoHi values).2).drop 1

/-- `start = max(0, i - 1)` where `i` is where the first `for`/`break` loop of
`make_histogram` stops: the index of the first non-zero count.  (ℕ subtraction
is already clamped at 0.) -/
def histStart (counts : List ℕ) : ℕ :=
  counts.findIdx (fun c => 0 < c) - 1

/-- `end = counts.size - i` where `i` is where the second `for`/`break` loop
stops: the index in `reversed(counts)` of the last non-zero count. -/
def histStop (counts : List ℕ) : ℕ :=
  counts.length - counts.reverse.findIdx (fun c => 0 < c)

/-- The trimmed counts `counts[start:end]` of `make_histogram`. -/
def histTrimmedCounts (values : List ℚ) (bins : ℕ) : List ℕ :=
  let counts := histCountsOf values bins
  (counts.drop (histStart counts)).take (histStop counts - histStart counts)

/-- The trimmed limits `limits[start:end]` of `make_histogram`. -/
def histTrimmedLimits (values : List ℚ) (bins : ℕ) : List ℚ :=
  let counts := histCountsOf values bins
  ((histLimitsOf values bins).drop (histStart counts)).take
    (histStop counts - histStart counts)

/-- `make_histogram(values, bins)`.  The two `for`/`break` loops leave `start`
and `end` unbound when every count is zero, which the source would surface as
a `NameError`; that path is modelled by the `counts.all (· = 0)` branch. -/
def make_histogram (values : List ℚ) (bins : ℕ) : Except String HistogramProto :=
  if values.length = 0 then .error "The input has no element." else
  if (histCountsOf values bins).all (fun c => c = 0) then
    .error "NameError: name start is not defined" else
  if (histTrimmedCounts values bins).length = 0 ∨ (histTrimmedLimits values bins).length = 0 then
    .error "The histogram is emtpy, please file a bug report."
  else
    .ok { min := npMin values, max := npMax values, num := values.length,
          sum := values.sum, sum_squares := (values.map (fun v => v * v)).sum,
          bucket_limit := histTrimmedLimits values bins,
          bucket := histTrimmedCounts values bins }

/-! ## Supporting lemmas about the numpy model -/

theorem foldl_min_le (l : List ℚ) : ∀ (b : ℚ),
    l.foldl min b ≤ b ∧ ∀ x ∈ l, l.foldl min b ≤ x := by
  induction l with
  | nil => intro b; exact ⟨le_refl b, by simp⟩
  | cons a t ih =>
    intro b
    refine ⟨le_trans (ih (min b a)).1 (min_le_left b a), ?_⟩
    intro x hx
    rcases List.mem_cons.mp hx with rfl | hx2
    · exact le_trans (ih (min b x)).1 (min_le_right b x)
    · exact (ih (min b a)).2 x hx2

theorem le_foldl_max (l : List ℚ) : ∀ (b : ℚ),
    b ≤ l.foldl max b ∧ ∀ x ∈ l, x ≤ l.foldl max b := by
  induction l with
  | nil => intro b; exact ⟨le_refl b, by simp⟩
  | cons a t ih =>
    intro b
    refine ⟨le_trans (le_max_left b a) (ih (max b a)).1, ?_⟩
    intro x hx
    rcases List.mem_cons.mp hx with rfl | hx2
    · exact le_trans (le_max_right b x) (ih (max b x)).1
    · exact (ih (max b a)).2 x hx2

theorem npMin_le {values : List ℚ} {x : ℚ} (hx : x ∈ values) : npMin values ≤ x := by
  cases values with
  | nil => simp at hx
  | cons a t =>
    rcases List.mem_cons.mp hx with rfl | hx2
    · exact (foldl_min_le t x).1
    · exact (foldl_min_le t a).2 x hx2

theorem le_npMax {values : List ℚ} {x : ℚ} (hx : x ∈ values) : x ≤ npMax values := by
  cases values with
  | nil => simp at hx
  | cons a t =>
    rcases List.mem_cons.mp hx with rfl | hx2
    · exact (le_foldl_max t x).1
    · exact (le_foldl_max t a).2 x hx2

theorem histLoHi_lt {values : List ℚ} (hne : values ≠ []) :
    (histLoHi values).1 < (histLoHi values).2 := by
  unfold histLoHi npHistRange
  by_cases h : npMin values = npMax values
  · rw [if_pos h]
    show npMin values - 1/2 < npMax values + 1/2
    rw [h]
    linarith
  · rw [if_neg h]
    show npMin values < npMax values
    rcases List.exists_mem_of_ne_nil values hne with ⟨x, hx⟩
    exact lt_of_le_of_ne (le_trans (npMin_le hx) (le_npMax hx)) h

theorem histLoHi_mem {values : List ℚ} {x : ℚ} (hx : x ∈ values) :
    (histLoHi values).1 ≤ x ∧ x ≤ (histLoHi values).2 := by
  unfold histLoHi npHistRange
  by_cases h : npMin values = npMax values
  · rw [if_pos h]
    refine ⟨?_, ?_⟩
    · show npMin values - 1/2 ≤ x
      have := npMin_le hx
      linarith
    · show x ≤ npMax values + 1/2
      have := le_npMax hx
      linarith
  · rw [if_neg h]
    exact ⟨npMin_le hx, le_npMax hx⟩

theorem npBinIdx_lt_bins {lo hi : ℚ} {bins : ℕ} (hb : 1 ≤ bins) {x : ℚ} {k : ℕ}
    (h : npBinIdx lo hi bins x = some k) : k < bins := by
  unfold npBinIdx at h
  by_cases hc : x < lo ∨ hi < x
  · simp [hc] at h
  · simp only [if_neg hc, Option.some.injEq] at h
    omega

theorem sum_map_range_add (f g : ℕ → ℕ) (n : ℕ) :
    ((List.range n).map (fun k => f k + g k)).sum =
      ((List.range n).map f).sum + ((List.range n).map g).sum := by
  induction n with
  | zero => simp
  | succ m ih =>
    simp only [List.range_succ, List.map_append, List.sum_append, ih, List.map_cons,
      List.map_nil, List.sum_cons, List.sum_nil]
    omega

theorem sum_map_range_indicator (j n : ℕ) :
    ((List.range n).map (fun k => if j = k then 1 else 0)).sum
      = if j < n then 1 else 0 := by
  induction n with
  | zero => simp
  | succ m ih =>
    simp only [List.range_succ, List.map_append, List.sum_append, ih, List.map_cons,
      List.map_nil, List.sum_cons, List.sum_nil]
    by_cases hjm : j < m
    · rw [if_pos hjm, if_neg (by omega), if_pos (by omega)]
      omega
    · by_cases hje : j = m
      · rw [if_neg (by omega), if_pos hje, if_pos (by omega)]
        omega
      · rw [if_neg hjm, if_neg hje, if_neg (by omega)]
        omega

theorem npHistogramCounts_length (values : List ℚ) (bins : ℕ) (lo hi : ℚ) :
    (npHistogramCounts values bins lo hi).length = bins := by
  simp [npHistogramCounts]

theorem histCountsOf_length (values : List ℚ) (bins : ℕ) :
    (histCountsOf values bins).length = bins := by
  simp [histCountsOf, npHistogramCounts]

theorem histLimitsOf_length (values : List ℚ) (bins : ℕ) :
    (histLimitsOf values bins).length = bins := by
  unfold histLimitsOf npHistogramEdges
  rw [List.length_drop, List.length_map, List.length_range]
  omega

theorem npHistogramCounts_sum {lo hi : ℚ} {bins : ℕ} (hb : 1 ≤ bins)
    (values : List ℚ) (hin : ∀ x ∈ values, ¬(x < lo ∨ hi < x)) :
    (npHistogramCounts values bins lo hi).sum = values.length := by
  induction values with
  | nil => simp [npHistogramCounts]
  | cons a t ih =>
    have ha : ¬(a < lo ∨ hi < a) := hin a (List.mem_cons_self a t)
    obtain ⟨k0, hk0⟩ : ∃ k0, npBinIdx lo hi bins a = some k0 := by
      unfold npBinIdx
      exact ⟨_, by rw [if_neg ha]⟩
    have hk0lt : k0 < bins := npBinIdx_lt_bins hb hk0
    have hstep : npHistogramCounts (a :: t) bins lo hi
        = (List.range bins).map (fun k =>
            t.countP (fun x => npBinIdx lo hi bins x = some k)
              + (if k0 = k then 1 else 0)) := by
      unfold npHistogramCounts
      refine List.map_congr_left ?_
      intro k _
      rw [List.countP_cons]
      congr 1
      simp only [hk0, Option.some.injEq, decide_eq_true_eq]
    rw [hstep, sum_map_range_add]
    have ht := ih (fun x hx => hin x (List.mem_cons_of_mem a hx))
    rw [show ((List.range bins).map
        (fun k => t.countP (fun x => npBinIdx lo hi bins x = some k))).sum = t.length
      from ht, sum_map_range_indicator, if_pos hk0lt]
    simp

theorem histCountsOf_sum {values : List ℚ} {bins : ℕ} (hb : 1 ≤ bins) :
    (histCountsOf values bins).sum = values.length := by
  unfold histCountsOf
  refine npHistogramCounts_sum hb values ?_
  intro x hx
  have := histLoHi_mem hx
  push_neg
  exact ⟨by linarith [this.1], by linarith [this.2]⟩

theorem exists_pos_count {values : List ℚ} {bins : ℕ} (hb : 1 ≤ bins)
    (hne : values ≠ []) : ∃ c ∈ histCountsOf values bins, 0 < c := by
  by_contra hall
  push_neg at hall
  have hzero : (histCountsOf values bins).sum = 0 := by
    refine List.sum_eq_zero ?_
    intro c hc
    exact Nat.eq_zero_of_le_zero (hall c hc)
  rw [histCountsOf_sum hb] at hzero
  exact hne (List.length_eq_zero.mp hzero)

/-! ## Index bookkeeping for the trimming loops -/

theorem getD_lt_eq {α : Type} (l : List α) (d : α) {m : ℕ} (h : m < l.length) :
    l.getD m d = l.get ⟨m, h⟩ := by
  rw [List.getD_eq_getElem?_getD, List.getElem?_eq_getElem h]
  rfl

theorem getD_reverse {l : List ℕ} {m : ℕ} (h : m < l.length) :
    l.reverse.getD m 0 = l.getD (l.length - 1 - m) 0 := by
  have h2 : m < l.reverse.length := by rw [List.length_reverse]; exact h
  have h3 : l.length - 1 - m < l.length := by omega
  rw [getD_lt_eq _ _ h2, getD_lt_eq _ _ h3]
  exact List.getElem_reverse h2

theorem findIdx_lt_of_exists {l : List ℕ} (hex : ∃ c ∈ l, 0 < c) :
    l.findIdx (fun c => 0 < c) < l.length := by
  rcases hex with ⟨c, hc, hpos⟩
  exact List.findIdx_lt_length_of_exists ⟨c, hc, decide_eq_true hpos⟩

theorem findIdx_pos_getD {l : List ℕ} (hex : ∃ c ∈ l, 0 < c) :
    0 < l.getD (l.findIdx (fun c => 0 < c)) 0 := by
  have hlt := findIdx_lt_of_exists hex
  rw [getD_lt_eq _ _ hlt]
  have := @List.findIdx_getElem _ (fun c => 0 < c) l hlt
  simpa using this

theorem getD_eq_zero_of_lt_findIdx {l : List ℕ} {m : ℕ}
    (hm : m < l.findIdx (fun c => 0 < c)) (hml : m < l.length) :
    l.getD m 0 = 0 := by
  rw [getD_lt_eq _ _ hml]
  have := @List.not_of_lt_findIdx _ (fun c => 0 < c) l m hm
  simpa using this

/-- The first non-zero index is not to the right of the last non-zero index. -/
theorem findIdx_le_rev {l : List ℕ} (hex : ∃ c ∈ l, 0 < c) :
    l.findIdx (fun c => 0 < c)
      ≤ l.length - 1 - l.reverse.findIdx (fun c => 0 < c) := by
  have hexr : ∃ c ∈ l.reverse, 0 < c := by
    rcases hex with ⟨c, hc, hpos⟩
    exact ⟨c, List.mem_reverse.mpr hc, hpos⟩
  have hi := findIdx_lt_of_exists hex
  have hj := findIdx_lt_of_exists hexr
  rw [List.length_reverse] at hj
  by_contra hcon
  push_neg at hcon
  set i := l.findIdx (fun c => 0 < c) with hidef
  set j := l.reverse.findIdx (fun c => 0 < c) with hjdef
  have hm : l.length - 1 - i < j := by omega
  have hml : l.length - 1 - i < l.reverse.length := by rw [List.length_reverse]; omega
  have hz := getD_eq_zero_of_lt_findIdx hm hml
  rw [getD_reverse (by omega : l.length - 1 - i < l.length)] at hz
  rw [show l.length - 1 - (l.length - 1 - i) = i from by omega] at hz
  have hpos := findIdx_pos_getD hex
  rw [← hidef] at hpos
  omega

theorem getD_take_drop (l : List ℕ) (s t m : ℕ) (hm : m < t) (hsl : s + m < l.length) :
    ((l.drop s).take t).getD m 0 = l.getD (s + m) 0 := by
  have hdl : m < (l.drop s).length := by rw [List.length_drop]; omega
  have htl : m < ((l.drop s).take t).length := by
    rw [List.length_take]; exact lt_min hm hdl
  rw [getD_lt_eq _ _ htl, getD_lt_eq _ _ hsl]
  show ((l.drop s).take t)[m] = l[s + m]
  rw [List.getElem_take, List.getElem_drop]

theorem headD_drop_one (l : List ℕ) : (l.drop 1).headD 0 = l.getD 1 0 := by
  cases l with
  | nil => rfl
  | cons a t => cases t with
    | nil => rfl
    | cons b u => rfl

theorem head?_getD {α : Type} {l : List α} {hd : α} (d : α) (h : l.head? = some hd) :
    l.getD 0 d = hd := by
  cases l with
  | nil => simp at h
  | cons a t =>
    simp at h
    simpa using h

theorem make_histogram_eq_ok {values : List ℚ} {bins : ℕ}
    (h1 : ¬ values.length = 0)
    (h2 : ¬ ((histCountsOf values bins).all (fun c => c = 0) = true))
    (h3 : ¬ ((histTrimmedCounts values bins).length = 0
              ∨ (histTrimmedLimits values bins).length = 0)) :
    make_histogram values bins = .ok
      { min := npMin values, max := npMax values,
        num := values.length, sum := values.sum,
        sum_squares := (values.map (fun v => v * v)).sum,
        bucket_limit := histTrimmedLimits values bins,
        bucket := histTrimmedCounts values bins } := by
  unfold make_histogram
  rw [if_neg h1, if_neg h2, if_neg h3]

theorem histTrimmedCounts_eq (values : List ℚ) (bins : ℕ) :
    histTrimmedCounts values bins
      = ((histCountsOf values bins).drop (histStart (histCountsOf values bins))).take
          (histStop (histCountsOf values bins) - histStart (histCountsOf values bins)) := rfl

theorem histTrimmedLimits_eq (values : List ℚ) (bins : ℕ) :
    histTrimmedLimits values bins
      = ((histLimitsOf values bins).drop (histStart (histCountsOf values bins))).take
          (histStop (histCountsOf values bins) - histStart (histCountsOf values bins)) := rfl

theorem histTrimmed_lengths_eq (values : List ℚ) (bins : ℕ) :
    (histTrimmedLimits values bins).length = (histTrimmedCounts values bins).length := by
  rw [histTrimmedCounts_eq, histTrimmedLimits_eq]
  rw [List.length_take, List.length_take, List.length_drop, List.length_drop]
  rw [histCountsOf_length, histLimitsOf_length]

/-- C2: for every non-empty array, `make_histogram` succeeds and trims exactly
as `counts[start:end]`, `limits[start:end]` with `start = max(0, i-1)` for `i`
the first non-zero count index and `end` one past the last non-zero index,
keeping at most one zero guard bucket on the low side. -/
theorem histogram_trim_slices (values : List ℚ) (bins : ℕ)
    (hb : 1 ≤ bins) (hne : values ≠ []) :
    ∃ (h : HistogramProto) (i e : ℕ),
      make_histogram values bins = .ok h ∧
      i < (histCountsOf values bins).length ∧
      0 < (histCountsOf values bins).getD i 0 ∧
      (∀ m, m < i → (histCountsOf values bins).getD m 0 = 0) ∧
      e ≤ (histCountsOf values bins).length ∧
      0 < (histCountsOf values bins).getD (e - 1) 0 ∧
      (∀ m, e ≤ m → m < (histCountsOf values bins).length →
        (histCountsOf values bins).getD m 0 = 0) ∧
      h.bucket = ((histCountsOf values bins).drop (i - 1)).take (e - (i - 1)) ∧
      h.bucket_limit = ((histLimitsOf values bins).drop (i - 1)).take (e - (i - 1)) ∧
      (∀ hd, h.bucket.head? = some hd → 0 < hd ∨ 0 < (h.bucket.drop 1).headD 0) := by
  have hex := exists_pos_count hb hne
  set counts := histCountsOf values bins with hcounts
  have hexr : ∃ c ∈ counts.reverse, 0 < c := by
    rcases hex with ⟨c, hc, hp⟩
    exact ⟨c, List.mem_reverse.mpr hc, hp⟩
  set i := counts.findIdx (fun c => 0 < c) with hi
  set j := counts.reverse.findIdx (fun c => 0 < c) with hj
  have hilt : i < counts.length := by rw [hi]; exact findIdx_lt_of_exists hex
  have hjlt : j < counts.length := by
    have := findIdx_lt_of_exists hexr
    rw [List.length_reverse] at this
    rw [hj]
    exact this
  have hcross : i ≤ counts.length - 1 - j := by rw [hi, hj]; exact findIdx_le_rev hex
  have hstart2 : histStart counts = i - 1 := by rw [hi]; rfl
  have hstop2 : histStop counts = counts.length - j := by rw [hj]; rfl
  have h1 : ¬ values.length = 0 := fun h => hne (List.length_eq_zero.mp h)
  have h2 : ¬ (counts.all (fun c => c = 0) = true) := by
    intro hall
    rcases hex with ⟨c, hc, hp⟩
    have := List.all_eq_true.mp hall c hc
    simp at this
    omega
  have hlenc : (histTrimmedCounts values bins).length
      = (counts.length - j) - (i - 1) := by
    rw [histTrimmedCounts_eq, List.length_take, List.length_drop, ← hcounts,
      hstart2, hstop2]
    rw [min_eq_left (by omega)]
  have hlenl : (histTrimmedLimits values bins).length
      = (counts.length - j) - (i - 1) := by
    rw [histTrimmed_lengths_eq]
    exact hlenc
  have h3 : ¬ ((histTrimmedCounts values bins).length = 0
      ∨ (histTrimmedLimits values bins).length = 0) := by
    push_neg
    exact ⟨by rw [hlenc]; omega, by rw [hlenl]; omega⟩
  refine ⟨_, i, counts.length - j, make_histogram_eq_ok h1 h2 h3, hilt, ?_, ?_, by omega,
    ?_, ?_, ?_, ?_, ?_⟩
  · rw [hi]
    exact findIdx_pos_getD hex
  · intro m hm
    rw [hi] at hm
    exact getD_eq_zero_of_lt_findIdx hm (by omega)
  · have hp := findIdx_pos_getD hexr
    rw [← hj] at hp
    rw [getD_reverse (by omega : j < counts.length)] at hp
    rw [show counts.length - j - 1 = counts.length - 1 - j from by omega]
    exact hp
  · intro m hme hml
    have hm2 : counts.length - 1 - m < counts.reverse.findIdx (fun c => 0 < c) := by
      rw [← hj]
      omega
    have hz := getD_eq_zero_of_lt_findIdx hm2 (by rw [List.length_reverse]; omega)
    rw [getD_reverse (by omega : counts.length - 1 - m < counts.length)] at hz
    rw [show counts.length - 1 - (counts.length - 1 - m) = m from by omega] at hz
    exact hz
  · show histTrimmedCounts values bins = _
    rw [histTrimmedCounts_eq, ← hcounts, hstart2, hstop2]
  · show histTrimmedLimits values bins = _
    rw [histTrimmedLimits_eq, ← hcounts, hstart2, hstop2]
  · intro hd hhd
    have hdval : (histTrimmedCounts values bins).getD 0 0 = hd := head?_getD 0 hhd
    rw [histTrimmedCounts_eq, ← hcounts, hstart2, hstop2] at hdval
    rw [getD_take_drop counts (i - 1) (counts.length - j - (i - 1)) 0
      (by omega) (by omega)] at hdval
    by_cases hi0 : i = 0
    · left
      have hp : 0 < counts.getD i 0 := by rw [hi]; exact findIdx_pos_getD hex
      rw [← hdval]
      rw [show i - 1 + 0 = i from by omega]
      exact hp
    · right
      rw [headD_drop_one, histTrimmedCounts_eq, ← hcounts, hstart2, hstop2]
      rw [getD_take_drop counts (i - 1) (counts.length - j - (i - 1)) 1
        (by omega) (by omega)]
      rw [show i - 1 + 1 = i from by omega]
      rw [hi]
      exact findIdx_pos_getD hex

/-- C3: every successful histogram has equally long, never empty bucket
sequences, strictly ascending `bucket_limit`, and a total trimmed count not
exceeding the number of input elements. -/
theorem histogram_bucket_invariants (values : List ℚ) (bins : ℕ)
    (h : HistogramProto) (hb : 1 ≤ bins)
    (hok : make_histogram values bins = .ok h) :
    h.bucket_limit.length = h.bucket.length ∧
    1 ≤ h.bucket.length ∧
    List.Chain' (fun a b => a < b) h.bucket_limit ∧
    h.bucket.sum ≤ values.length := by
  unfold make_histogram at hok
  by_cases h1 : values.length = 0
  · rw [if_pos h1] at hok
    exact Except.noConfusion hok
  rw [if_neg h1] at hok
  by_cases h2 : (histCountsOf values bins).all (fun c => c = 0) = true
  · rw [if_pos h2] at hok
    exact Except.noConfusion hok
  rw [if_neg h2] at hok
  by_cases h3 : ((histTrimmedCounts values bins).length = 0
      ∨ (histTrimmedLimits values bins).length = 0)
  · rw [if_pos h3] at hok
    exact Except.noConfusion hok
  rw [if_neg h3] at hok
  injection hok with hok2
  subst hok2
  push_neg at h3
  have hne : values ≠ [] := fun hv => h1 (by rw [hv]; rfl)
  refine ⟨histTrimmed_lengths_eq values bins,
    by show 1 ≤ (histTrimmedCounts values bins).length; omega, ?_, ?_⟩
  · -- strictly ascending limits
    have hlo := histLoHi_lt hne
    have hb0 : (0:ℚ) < (bins : ℚ) := by
      have : (1:ℚ) ≤ (bins : ℚ) := by exact_mod_cast hb
      linarith
    have hchain : List.Chain' (fun a b => a < b)
        (npHistogramEdges bins (histLoHi values).1 (histLoHi values).2) := by
      unfold npHistogramEdges
      rw [List.chain'_map, List.chain'_range_succ]
      intro m hm
      apply add_lt_add_left
      rw [div_lt_div_iff_of_pos_right hb0]
      have hA : 0 < (histLoHi values).2 - (histLoHi values).1 := sub_pos.mpr hlo
      have hmc : (m : ℚ) < ((m + 1 : ℕ) : ℚ) := by push_cast; linarith
      exact mul_lt_mul_of_pos_left hmc hA
    show List.Chain' (fun a b => a < b) (histTrimmedLimits values bins)
    have hsub : List.Sublist (histTrimmedLimits values bins)
        (npHistogramEdges bins (histLoHi values).1 (histLoHi values).2) := by
      rw [histTrimmedLimits_eq]
      refine ((List.take_sublist _ _).trans ((List.drop_sublist _ _).trans ?_))
      unfold histLimitsOf
      exact List.drop_sublist _ _
    exact hchain.sublist hsub
  · -- total count bounded by the number of elements
    show (histTrimmedCounts values bins).sum ≤ values.length
    have hsub : List.Sublist (histTrimmedCounts values bins) (histCountsOf values bins) := by
      rw [histTrimmedCounts_eq]
      exact (List.take_sublist _ _).trans (List.drop_sublist _ _)
    calc (histTrimmedCounts values bins).sum
        ≤ (histCountsOf values bins).sum :=
          hsub.sum_le_sum (fun a _ => Nat.zero_le a)
      _ = values.length := histCountsOf_sum hb

/-- The histogram proto produced for the array `[1,1,1,5,5,5]` with 5 bins. -/
def histExample : HistogramProto :=
  { min := 1, max := 5, num := 6, sum := 18, sum_squares := 78,
    bucket_limit := [9/5, 13/5, 17/5, 21/5, 5], bucket := [3, 0, 0, 0, 3] }

theorem make_histogram_example :
    make_histogram [1, 1, 1, 5, 5, 5] 5 = .ok histExample := by
  norm_num [make_histogram, histExample, histCountsOf, histLimitsOf, histTrimmedCounts,
    histTrimmedLimits, histLoHi, npHistRange, npHistogramCounts, npHistogramEdges,
    npBinIdx, npMin, npMax, histStart, histStop, List.range_succ, List.countP_cons,
    List.findIdx_cons, min_def, max_def]

/-- C4: the aggregate statistics of every successful histogram are computed
over the original untrimmed flattened array; in particular
`make_histogram [1,1,1,5,5,5] 5` yields `min=1, max=5, num=6, sum=18` with
non-empty trimmed buckets `[3,0,0,0,3]` covering the values 1 and 5. -/
theorem histogram_stats_untrimmed :
    (∀ (values : List ℚ) (bins : ℕ) (h : HistogramProto),
        make_histogram values bins = .ok h →
        h.min = npMin values ∧ h.max = npMax values ∧ h.num = values.length ∧
        h.sum = values.sum ∧ h.sum_squares = (values.map (fun v => v * v)).sum) ∧
    make_histogram [1, 1, 1, 5, 5, 5] 5 = .ok histExample := by
  constructor
  · intro values bins h hok
    unfold make_histogram at hok
    by_cases h1 : values.length = 0
    · rw [if_pos h1] at hok
      exact Except.noConfusion hok
    rw [if_neg h1] at hok
    by_cases h2 : (histCountsOf values bins).all (fun c => c = 0) = true
    · rw [if_pos h2] at hok
      exact Except.noConfusion hok
    rw [if_neg h2] at hok
    by_cases h3 : ((histTrimmedCounts values bins).length = 0
        ∨ (histTrimmedLimits values bins).length = 0)
    · rw [if_pos h3] at hok
      exact Except.noConfusion hok
    rw [if_neg h3] at hok
    injection hok with hok2
    subst hok2
    exact ⟨rfl, rfl, rfl, rfl, rfl⟩
  · exact make_histogram_example

/-- C4 witness: the statistics clause applied to the concrete histogram of
`[1,1,1,5,5,5]`. -/
theorem histogram_stats_untrimmed_witness :
    histExample.min = npMin [1, 1, 1, 5, 5, 5] ∧
    histExample.max = npMax [1, 1, 1, 5, 5, 5] ∧
    histExample.num = ([1, 1, 1, 5, 5, 5] : List ℚ).length ∧
    histExample.sum = ([1, 1, 1, 5, 5, 5] : List ℚ).sum ∧
    histExample.sum_squares = (([1, 1, 1, 5, 5, 5] : List ℚ).map (fun v => v * v)).sum :=
  histogram_stats_untrimmed.1 [1, 1, 1, 5, 5, 5] 5 histExample
    histogram_stats_untrimmed.2

/-- C2 witness: the trimming characterization at the concrete array
`[1,1,1,5,5,5]` with 5 bins. -/
theorem histogram_trim_slices_witness :
    ∃ (h : HistogramProto) (i e : ℕ),
      make_histogram [1, 1, 1, 5, 5, 5] 5 = .ok h ∧
      i < (histCountsOf [1, 1, 1, 5, 5, 5] 5).length ∧
      0 < (histCountsOf [1, 1, 1, 5, 5, 5] 5).getD i 0 ∧
      (∀ m, m < i → (histCountsOf [1, 1, 1, 5, 5, 5] 5).getD m 0 = 0) ∧
      e ≤ (histCountsOf [1, 1, 1, 5, 5, 5] 5).length ∧
      0 < (histCountsOf [1, 1, 1, 5, 5, 5] 5).getD (e - 1) 0 ∧
      (∀ m, e ≤ m → m < (histCountsOf [1, 1, 1, 5, 5, 5] 5).length →
        (histCountsOf [1, 1, 1, 5, 5, 5] 5).getD m 0 = 0) ∧
      h.bucket = ((histCountsOf [1, 1, 1, 5, 5, 5] 5).drop (i - 1)).take (e - (i - 1)) ∧
      h.bucket_limit
        = ((histLimitsOf [1, 1, 1, 5, 5, 5] 5).drop (i - 1)).take (e - (i - 1)) ∧
      (∀ hd, h.bucket.head? = some hd → 0 < hd ∨ 0 < (h.bucket.drop 1).headD 0) :=
  histogram_trim_slices [1, 1, 1, 5, 5, 5] 5 (by norm_num) (by simp)

/-- C3 witness: the bucket invariants at the concrete histogram of
`[1,1,1,5,5,5]`. -/
theorem histogram_bucket_invariants_witness :
    histExample.bucket_limit.length = histExample.bucket.length ∧
    1 ≤ histExample.bucket.length ∧
    List.Chain' (fun a b => a < b) histExample.bucket_limit ∧
    histExample.bucket.sum ≤ ([1, 1, 1, 5, 5, 5] : List ℚ).length :=
  histogram_bucket_invariants [1, 1, 1, 5, 5, 5] 5 histExample (by norm_num)
    make_histogram_example

/-! ## numpy arrays with shape, dtype, squeeze -/

/-- A dense numpy array: shape, row-major flattened data, dtype tag.
Well-formedness (`data.length = shape.prod`) is assumed where needed. -/
structure NpArray where
  shape : List ℕ
  data : List ℚ
  dtype : String
deriving DecidableEq

def NpArray.ndim (t : NpArray) : ℕ := t.shape.length

/-- `np.squeeze`: remove all axes of size 1. -/
def NpArray.squeeze (t : NpArray) : NpArray :=
  { shape := t.shape.filter (fun d => d ≠ 1), data := t.data, dtype := t.dtype }

/-- `_calc_scale_factor`: 1 for already-quantized uint8 data, else 255. -/
def calc_scale_factor (t : NpArray) : ℚ :=
  if t.dtype = "uint8" then 1 else 255

/-- Python `int(x)`: truncation toward zero. -/
def pyInt (x : ℚ) : ℤ :=
  if 0 ≤ x then ⌊x⌋ else ⌈x⌉

/-- One element of `(tensor * scale).astype(np.uint8)`: numpy wraps the
truncated value modulo 256. -/
def toUint8 (x : ℚ) : ℕ := ((pyInt x) % 256).toNat

/-- The pixel rescaling shared by `image`, `image_boxes` and `video`:
`tensor.astype(np.float32)`, multiply by the dtype scale factor, cast to
uint8. -/
def scaleToUint8 (t : NpArray) : NpArray :=
  { shape := t.shape,
    data := t.data.map (fun x => ((toUint8 (x * calc_scale_factor t) : ℕ) : ℚ)),
    dtype := "uint8" }

/-! ## `scalar` -/

structure ScalarSummary where
  tag : String
  simple_value : ℚ
deriving DecidableEq

/-- `scalar(name, scalar)`: clean the tag, `squeeze`, assert the result is
0-D, convert with `float(...)` (which itself raises unless the array holds
exactly one element), and wrap into a summary value. -/
def scalar (name : String) (t : NpArray) : Except String ScalarSummary :=
  let name2 := clean_tag name
  if (t.squeeze).ndim = 0 then
    match t.data with
    | [v] => .ok { tag := name2, simple_value := v }
    | _ => .error "TypeError: only size-1 arrays can be converted to Python scalars"
  else .error "AssertionError: scalar should be 0D"

theorem squeeze_ndim_zero_data {t : NpArray} (hwf : t.data.length = t.shape.prod)
    (h : t.squeeze.ndim = 0) : ∃ v, t.data = [v] := by
  have hnil : t.shape.filter (fun d => d ≠ 1) = [] :=
    List.length_eq_zero.mp h
  have hone : ∀ d ∈ t.shape, d = 1 := by
    intro d hd
    have := List.filter_eq_nil_iff.mp hnil d hd
    simpa using this
  have hprod : t.shape.prod = 1 := List.prod_eq_one hone
  rw [hprod] at hwf
  exact List.length_eq_one.mp hwf

theorem scalar_error_iff {name : String} {t : NpArray}
    (hwf : t.data.length = t.shape.prod) :
    (∃ e, scalar name t = .error e) ↔ t.squeeze.ndim ≠ 0 := by
  unfold scalar
  by_cases h : t.squeeze.ndim = 0
  · rcases squeeze_ndim_zero_data hwf h with ⟨v, hv⟩
    rw [if_pos h, hv]
    simp [h]
  · rw [if_neg h]
    simp [h]

/-! ## `audio` -/

/-- `tensor.clip(-1, 1)` per element. -/
def clip1 (x : ℚ) : ℚ := max (-1) (min 1 x)

/-- `struct.pack` with format 16-bit little-endian signed: two bytes
(low, high); values outside the signed 16-bit range raise `struct.error`. -/
def pack_h (v : ℤ) : Except String (List ℕ) :=
  if v < -32768 ∨ 32767 < v then
    .error "struct.error: short format requires -32768 <= number <= 32767"
  else .ok [((v % 65536) % 256).toNat, ((v % 65536) / 256).toNat]

/-- The accumulation loop `for v in tensor_list: tensor_enc += struct.pack(...)`. -/
def pack_frames : List ℤ → Except String (List ℕ)
  | [] => .ok []
  | v :: vs =>
    match pack_h v, pack_frames vs with
    | .ok b, .ok rest => .ok (b ++ rest)
    | .error e, _ => .error e
    | .ok _, .error e => .error e

/-- The WAV container assembled through the `wave` module: the channel count,
sample width, frame rate set on the writer, and the raw PCM bytes handed to
`writeframes`. -/
structure WavFile where
  nchannels : ℕ
  sampwidth : ℕ
  framerate : ℚ
  frames : List ℕ
deriving DecidableEq

structure AudioSummary where
  tag : String
  sample_rate : ℚ
  num_channels : ℕ
  length_frames : ℕ
  encoded_audio_string : WavFile
  content_type : String
deriving DecidableEq

/-- `audio(tag, tensor, sample_rate)`: squeeze; clip to `[-1,1]` when the
amplitude exceeds 1 (`abs(tensor).max()` raises on an empty array); assert
the squeezed tensor is 1-D; quantize each sample with `int(32767.0 * x)`;
pack as little-endian 16-bit PCM; wrap in a mono WAV container with
content type `audio/wav`. -/
def audio (tag : String) (t0 : NpArray) (sample_rate : ℚ) : Except String AudioSummary :=
  let t := t0.squeeze
  if t.data.isEmpty then
    .error "ValueError: zero-size array to reduction operation maximum which has no identity"
  else
    let t2 := if 1 < npMax (t.data.map (fun x => |x|))
      then { shape := t.shape, data := t.data.map clip1, dtype := t.dtype }
      else t
    if t2.ndim = 1 then
      let tensor_list := t2.data.map (fun x => pyInt (32767 * x))
      match pack_frames tensor_list with
      | .error e => .error e
      | .ok enc =>
        .ok { tag := tag, sample_rate := sample_rate, num_channels := 1,
              length_frames := tensor_list.length,
              encoded_audio_string :=
                { nchannels := 1, sampwidth := 2, framerate := sample_rate,
                  frames := enc },
              content_type := "audio/wav" }
    else .error "AssertionError: input tensor should be 1 dimensional."

theorem clip1_abs_le (x : ℚ) : |clip1 x| ≤ 1 := by
  unfold clip1
  rw [abs_le]
  constructor
  · exact le_max_left _ _
  · exact max_le (by norm_num) (min_le_left 1 x)

theorem pyInt_sample_bound {x : ℚ} (h : |x| ≤ 1) :
    -32768 ≤ pyInt (32767 * x) ∧ pyInt (32767 * x) ≤ 32767 := by
  rw [abs_le] at h
  unfold pyInt
  by_cases h0 : (0:ℚ) ≤ 32767 * x
  · rw [if_pos h0]
    constructor
    · have := Int.floor_nonneg.mpr h0
      omega
    · have hle : ⌊(32767:ℚ) * x⌋ ≤ ⌊(32767:ℚ)⌋ :=
        Int.floor_le_floor (by nlinarith [h.2])
      have heq : ⌊(32767:ℚ)⌋ = 32767 := by norm_num
      omega
  · rw [if_neg h0]
    push_neg at h0
    constructor
    · have hle : ⌈(-32767:ℚ)⌉ ≤ ⌈(32767:ℚ) * x⌉ :=
        Int.ceil_le_ceil (by nlinarith [h.1])
      have heq : ⌈(-32767:ℚ)⌉ = -32767 := by
        rw [show ((-32767:ℚ)) = (((-32767:ℤ)):ℚ) from by norm_num]
        exact Int.ceil_intCast _
      omega
    · have hle : ⌈(32767:ℚ) * x⌉ ≤ ⌈(0:ℚ)⌉ :=
        Int.ceil_le_ceil (by linarith)
      have heq : ⌈(0:ℚ)⌉ = (0:ℤ) := Int.ceil_zero
      omega

theorem pack_h_ok {v : ℤ} (h1 : -32768 ≤ v) (h2 : v ≤ 32767) :
    pack_h v = .ok [((v % 65536) % 256).toNat, ((v % 65536) / 256).toNat] := by
  unfold pack_h
  rw [if_neg (by omega)]

theorem pack_frames_ok {l : List ℤ} (h : ∀ v ∈ l, -32768 ≤ v ∧ v ≤ 32767) :
    pack_frames l
      = .ok (l.map (fun v => [((v % 65536) % 256).toNat, ((v % 65536) / 256).toNat])).flatten := by
  induction l with
  | nil => rfl
  | cons v vs ih =>
    have hv := h v (List.mem_cons_self v vs)
    have hvs := ih (fun w hw => h w (List.mem_cons_of_mem v hw))
    unfold pack_frames
    rw [pack_h_ok hv.1 hv.2, hvs]
    simp

theorem audio_data_abs_le (t : NpArray) :
    ∀ x ∈ (if 1 < npMax (t.data.map (fun x => |x|))
      then { shape := t.shape, data := t.data.map clip1, dtype := t.dtype }
      else t : NpArray).data, |x| ≤ 1 := by
  by_cases hclip : 1 < npMax (t.data.map (fun x => |x|))
  · rw [if_pos hclip]
    intro x hx
    rcases List.mem_map.mp hx with ⟨y, _, rfl⟩
    exact clip1_abs_le y
  · rw [if_neg hclip]
    push_neg at hclip
    intro x hx
    exact le_trans (le_npMax (List.mem_map_of_mem (fun z => |z|) hx)) hclip

theorem audio_ok {tag : String} {u : NpArray} {rate : ℚ}
    (hd : ¬ u.squeeze.data.isEmpty = true) (hn : u.squeeze.ndim = 1) :
    ∃ s, audio tag u rate = .ok s := by
  unfold audio
  rw [if_neg hd]
  have habs := audio_data_abs_le u.squeeze
  set t2 := (if 1 < npMax (u.squeeze.data.map (fun x => |x|))
    then { shape := u.squeeze.shape, data := u.squeeze.data.map clip1,
           dtype := u.squeeze.dtype }
    else u.squeeze : NpArray) with ht2
  have hnd : t2.ndim = 1 := by
    rw [ht2]
    by_cases hclip : 1 < npMax (u.squeeze.data.map (fun x => |x|))
    · rw [if_pos hclip]
      exact hn
    · rw [if_neg hclip]
      exact hn
  rw [if_pos hnd]
  have hbound : ∀ v ∈ t2.data.map (fun x => pyInt (32767 * x)),
      -32768 ≤ v ∧ v ≤ 32767 := by
    intro v hv
    rcases List.mem_map.mp hv with ⟨y, hy, rfl⟩
    exact pyInt_sample_bound (habs y hy)
  simp only [pack_frames_ok hbound]
  exact ⟨_, rfl⟩

theorem audio_error_iff {tag : String} {u : NpArray} {rate : ℚ} :
    (∃ e, audio tag u rate = .error e) ↔ u.data = [] ∨ u.squeeze.ndim ≠ 1 := by
  by_cases hd : u.squeeze.data.isEmpty = true
  · have hdata : u.data = [] := List.isEmpty_iff.mp hd
    constructor
    · intro _
      exact Or.inl hdata
    · intro _
      refine ⟨"ValueError: zero-size array to reduction operation maximum which has no identity", ?_⟩
      unfold audio
      rw [if_pos hd]
  · by_cases hn : u.squeeze.ndim = 1
    · rcases @audio_ok tag u rate hd hn with ⟨s, hs⟩
      constructor
      · rintro ⟨e, he⟩
        rw [hs] at he
        exact Except.noConfusion he
      · rintro (hdata | hnd)
        · exact absurd (by rw [show u.squeeze.data = u.data from rfl, hdata]; rfl) hd
        · exact absurd hn hnd
    · constructor
      · intro _
        exact Or.inr hn
      · intro _
        refine ⟨"AssertionError: input tensor should be 1 dimensional.", ?_⟩
        unfold audio
        rw [if_neg hd]
        have hnd : (if 1 < npMax (u.squeeze.data.map (fun x => |x|))
            then { shape := u.squeeze.shape, data := u.squeeze.data.map clip1,
                   dtype := u.squeeze.dtype }
            else u.squeeze : NpArray).ndim ≠ 1 := by
          by_cases hclip : 1 < npMax (u.squeeze.data.map (fun x => |x|))
          · rw [if_pos hclip]
            exact hn
          · rw [if_neg hclip]
            exact hn
        rw [if_neg hnd]

/-! ## `custom_scalars` charts -/

inductive ChartContent
  | margin (value lower upper : String)
  | multiline (tags : List String)
deriving DecidableEq

structure Chart where
  title : String
  content : ChartContent
deriving DecidableEq

/-- One chart of `custom_scalars`: a `Margin` chart asserts exactly three
series tags `(value, lower, upper)`; any other chart kind becomes a
multiline chart over all its tags. -/
def make_chart (title : String) (kind : String) (tags : List String) :
    Except String Chart :=
  if kind = "Margin" then
    match tags with
    | [value, lower, upper] =>
      .ok { title := title, content := .margin value lower upper }
    | _ => .error "AssertionError: len(tags) == 3"
  else .ok { title := title, content := .multiline tags }

theorem make_chart_error_iff {title kind : String} {tags : List String} :
    (∃ e, make_chart title kind tags = .error e) ↔
      kind = "Margin" ∧ tags.length ≠ 3 := by
  unfold make_chart
  by_cases hk : kind = "Margin"
  · rw [if_pos hk]
    match tags with
    | [a, b, c] => simp [hk]
    | [] => simp [hk]
    | [a] => simp [hk]
    | [a, b] => simp [hk]
    | a :: b :: c :: d :: rest => simp [hk]
  · rw [if_neg hk]
    simp [hk]

/-! ## C5: which inputs raise -/

theorem histTrimmedCounts_length_pos {values : List ℚ} {bins : ℕ}
    (hb : 1 ≤ bins) (hne : values ≠ []) :
    0 < (histTrimmedCounts values bins).length := by
  have hex := exists_pos_count hb hne
  set counts := histCountsOf values bins with hcounts
  have hexr : ∃ c ∈ counts.reverse, 0 < c := by
    rcases hex with ⟨c, hc, hp⟩
    exact ⟨c, List.mem_reverse.mpr hc, hp⟩
  set i := counts.findIdx (fun c => 0 < c) with hi
  set j := counts.reverse.findIdx (fun c => 0 < c) with hj
  have hilt : i < counts.length := by rw [hi]; exact findIdx_lt_of_exists hex
  have hjlt : j < counts.length := by
    have := findIdx_lt_of_exists hexr
    rw [List.length_reverse] at this
    rw [hj]
    exact this
  have hcross : i ≤ counts.length - 1 - j := by rw [hi, hj]; exact findIdx_le_rev hex
  have hstart2 : histStart counts = i - 1 := by rw [hi]; rfl
  have hstop2 : histStop counts = counts.length - j := by rw [hj]; rfl
  rw [histTrimmedCounts_eq, List.length_take, List.length_drop, ← hcounts,
    hstart2, hstop2]
  rw [min_eq_left (by omega)]
  omega

theorem make_histogram_error_iff {values : List ℚ} {bins : ℕ} (hb : 1 ≤ bins) :
    (∃ e, make_histogram values bins = .error e) ↔
      values = [] ∨ histTrimmedCounts values bins = [] := by
  by_cases hne : values = []
  · constructor
    · intro _
      exact Or.inl hne
    · intro _
      refine ⟨"The input has no element.", ?_⟩
      unfold make_histogram
      rw [if_pos (by rw [hne]; rfl)]
  · have h1 : ¬ values.length = 0 := fun h => hne (List.length_eq_zero.mp h)
    have hex := exists_pos_count hb hne
    have h2 : ¬ ((histCountsOf values bins).all (fun c => c = 0) = true) := by
      intro hall
      rcases hex with ⟨c, hc, hp⟩
      have := List.all_eq_true.mp hall c hc
      simp at this
      omega
    have hpos := histTrimmedCounts_length_pos hb hne
    have h3 : ¬ ((histTrimmedCounts values bins).length = 0
        ∨ (histTrimmedLimits values bins).length = 0) := by
      push_neg
      refine ⟨by omega, ?_⟩
      rw [histTrimmed_lengths_eq]
      omega
    rw [make_histogram_eq_ok h1 h2 h3]
    constructor
    · rintro ⟨e, he⟩
      exact Except.noConfusion he
    · rintro (h | h)
      · exact absurd h hne
      · rw [h] at hpos
        simp at hpos

/-- C5 (amended): a synchronous error is raised exactly when the histogram
input is empty or its trimmed result is empty; the scalar input does not
squeeze to a 0-D (single-element) array; the audio input is empty or is not
1-D after squeeze; or a `Margin` chart is given a number of series other
than exactly 3. -/
theorem invalid_input_errors (values : List ℚ) (bins : ℕ) (hb : 1 ≤ bins)
    (name atag : String) (t u : NpArray) (rate : ℚ)
    (hwf : t.data.length = t.shape.prod)
    (title kind : String) (tags : List String) :
    ((∃ e, make_histogram values bins = .error e) ↔
       values = [] ∨ histTrimmedCounts values bins = []) ∧
    ((∃ e, scalar name t = .error e) ↔ t.squeeze.ndim ≠ 0) ∧
    ((∃ e, audio atag u rate = .error e) ↔ u.data = [] ∨ u.squeeze.ndim ≠ 1) ∧
    ((∃ e, make_chart title kind tags = .error e) ↔
       kind = "Margin" ∧ tags.length ≠ 3) :=
  ⟨make_histogram_error_iff hb, scalar_error_iff hwf, audio_error_iff,
   make_chart_error_iff⟩

/-- C5 counterexample: on a zero-element input, `scalar` raises although the
array does not have more than one element, and `audio` raises although the
squeezed array is 1-D — both against the claim as stated. -/
theorem invalid_input_errors_counterexample :
    (∃ e, scalar "s" { shape := [0], data := [], dtype := "float64" } = .error e) ∧
    ({ shape := [0], data := [], dtype := "float64" } : NpArray).data.length = 0 ∧
    (∃ e, audio "a" { shape := [0], data := [], dtype := "float64" } 44100
      = .error e) ∧
    ({ shape := [0], data := [], dtype := "float64" } : NpArray).squeeze.ndim = 1 :=
  ⟨⟨"AssertionError: scalar should be 0D", rfl⟩, rfl,
   ⟨"ValueError: zero-size array to reduction operation maximum which has no identity",
    rfl⟩, rfl⟩

/-- C5 witness: the amended characterization applied at concrete inputs. -/
theorem invalid_input_errors_witness :
    ((∃ e, make_histogram [] 1 = .error e) ↔
       ([] : List ℚ) = [] ∨ histTrimmedCounts [] 1 = []) ∧
    ((∃ e, scalar "n" { shape := [], data := [3], dtype := "float64" } = .error e) ↔
       ({ shape := [], data := [3], dtype := "float64" } : NpArray).squeeze.ndim ≠ 0) ∧
    ((∃ e, audio "a" { shape := [2], data := [0, 0], dtype := "float64" } 44100
        = .error e) ↔
       ({ shape := [2], data := [0, 0], dtype := "float64" } : NpArray).data = []
         ∨ ({ shape := [2], data := [0, 0], dtype := "float64" } : NpArray).squeeze.ndim
             ≠ 1) ∧
    ((∃ e, make_chart "t" "Margin" ["x"] = .error e) ↔
       "Margin" = "Margin" ∧ (["x"] : List String).length ≠ 3) :=
  invalid_input_errors [] 1 (by norm_num) "n" "a"
    { shape := [], data := [3], dtype := "float64" }
    { shape := [2], data := [0, 0], dtype := "float64" } 44100 rfl "t" "Margin" ["x"]

/-! ## C8: audio quantization and packing -/

/-- C8: a successful `audio` call quantizes each (possibly clipped) sample by
casting `32767 * x` directly to an integer — truncation toward zero, not
round-to-nearest and not floor — and packs the 16-bit signed values as
little-endian PCM bytes, one channel, at the given sample rate, in a WAV
container with content type `audio/wav`. -/
theorem audio_truncating_quantization (tag : String) (u : NpArray) (rate : ℚ)
    (s : AudioSummary) (hok : audio tag u rate = .ok s) :
    (∃ samples : List ℚ,
      (samples = u.squeeze.data.map clip1 ∨ samples = u.squeeze.data) ∧
      (∀ x ∈ samples, |x| ≤ 1) ∧
      s.encoded_audio_string.frames
        = (samples.map (fun x =>
            [((pyInt (32767 * x) % 65536) % 256).toNat,
             ((pyInt (32767 * x) % 65536) / 256).toNat])).flatten ∧
      s.length_frames = samples.length) ∧
    s.num_channels = 1 ∧
    s.encoded_audio_string.nchannels = 1 ∧
    s.encoded_audio_string.sampwidth = 2 ∧
    s.sample_rate = rate ∧
    s.encoded_audio_string.framerate = rate ∧
    s.content_type = "audio/wav" ∧
    pyInt ((32767:ℚ) * (1/2)) = 16383 ∧ round ((32767:ℚ) * (1/2)) = 16384 ∧
    pyInt ((32767:ℚ) * (-1/3)) = -10922 ∧ ⌊(32767:ℚ) * (-1/3)⌋ = -10923 := by
  have htr1 : pyInt ((32767:ℚ) * (1/2)) = 16383 := by
    unfold pyInt
    rw [if_pos (by norm_num)]
    norm_num
  have htr2 : round ((32767:ℚ) * (1/2)) = 16384 := by
    rw [round_eq]
    norm_num
  have htr3 : pyInt ((32767:ℚ) * (-1/3)) = -10922 := by
    unfold pyInt
    rw [if_neg (by norm_num), Int.ceil_eq_iff]
    constructor <;> norm_num
  have htr4 : ⌊(32767:ℚ) * (-1/3)⌋ = -10923 := by norm_num
  unfold audio at hok
  by_cases hd : u.squeeze.data.isEmpty = true
  · rw [if_pos hd] at hok
    exact Except.noConfusion hok
  rw [if_neg hd] at hok
  have habs := audio_data_abs_le u.squeeze
  set t2 := (if 1 < npMax (u.squeeze.data.map (fun x => |x|))
    then { shape := u.squeeze.shape, data := u.squeeze.data.map clip1,
           dtype := u.squeeze.dtype }
    else u.squeeze : NpArray) with ht2
  by_cases hnd : t2.ndim = 1
  · rw [if_pos hnd] at hok
    have hbound : ∀ v ∈ t2.data.map (fun x => pyInt (32767 * x)),
        -32768 ≤ v ∧ v ≤ 32767 := by
      intro v hv
      rcases List.mem_map.mp hv with ⟨y, hy, rfl⟩
      exact pyInt_sample_bound (habs y hy)
    simp only [pack_frames_ok hbound] at hok
    injection hok with hok2
    subst hok2
    refine ⟨⟨t2.data, ?_, habs, ?_, ?_⟩, rfl, rfl, rfl, rfl, rfl, rfl,
      htr1, htr2, htr3, htr4⟩
    · rw [ht2]
      by_cases hclip : 1 < npMax (u.squeeze.data.map (fun x => |x|))
      · rw [if_pos hclip]
        exact Or.inl rfl
      · rw [if_neg hclip]
        exact Or.inr rfl
    · simp only [List.map_map]
      rfl
    · simp only [List.length_map]
  · simp only [if_neg hnd] at hok
    exact Except.noConfusion hok

/-- The summary produced for the concrete audio input `[1/2, -1/3]`. -/
def audioExample : AudioSummary :=
  { tag := "a", sample_rate := 44100, num_channels := 1, length_frames := 2,
    encoded_audio_string :=
      { nchannels := 1, sampwidth := 2, framerate := 44100,
        frames := [255, 63, 86, 213] },
    content_type := "audio/wav" }

theorem audio_example :
    audio "a" { shape := [2], data := [1/2, -1/3], dtype := "float64" } 44100
      = .ok audioExample := by
  have htrA : pyInt ((32767:ℚ) / 2) = 16383 := by
    unfold pyInt
    rw [if_pos (by norm_num)]
    norm_num
  have htrB : pyInt (-((32767:ℚ) / 3)) = -10922 := by
    unfold pyInt
    rw [if_neg (by norm_num), Int.ceil_eq_iff]
    constructor <;> norm_num
  norm_num [audio, audioExample, NpArray.squeeze, NpArray.ndim, npMax, clip1,
    pack_frames, pack_h, htrA, htrB]
  decide

/-- C8 witness: the packing characterization at the concrete input
`[1/2, -1/3]`. -/
theorem audio_truncating_quantization_witness :
    (∃ samples : List ℚ,
      (samples = ({ shape := [2], data := [1/2, -1/3], dtype := "float64" }
          : NpArray).squeeze.data.map clip1 ∨
        samples = ({ shape := [2], data := [1/2, -1/3], dtype := "float64" }
          : NpArray).squeeze.data) ∧
      (∀ x ∈ samples, |x| ≤ 1) ∧
      audioExample.encoded_audio_string.frames
        = (samples.map (fun x =>
            [((pyInt (32767 * x) % 65536) % 256).toNat,
             ((pyInt (32767 * x) % 65536) / 256).toNat])).flatten ∧
      audioExample.length_frames = samples.length) ∧
    audioExample.num_channels = 1 ∧
    audioExample.encoded_audio_string.nchannels = 1 ∧
    audioExample.encoded_audio_string.sampwidth = 2 ∧
    audioExample.sample_rate = 44100 ∧
    audioExample.encoded_audio_string.framerate = 44100 ∧
    audioExample.content_type = "audio/wav" ∧
    pyInt ((32767:ℚ) * (1/2)) = 16383 ∧ round ((32767:ℚ) * (1/2)) = 16384 ∧
    pyInt ((32767:ℚ) * (-1/3)) = -10922 ∧ ⌊(32767:ℚ) * (-1/3)⌋ = -10923 :=
  audio_truncating_quantization "a"
    { shape := [2], data := [1/2, -1/3], dtype := "float64" } 44100
    audioExample audio_example

/-! ## PR curves (`compute_curve`, `pr_curve`, `pr_curve_raw`) -/

/-- `np.int32` cast: wrap into the signed 32-bit range. -/
def int32cast (v : ℤ) : ℤ := (v + 2^31) % 2^32 - 2^31

/-- `np.cumsum`: prefix sums. -/
def cumsum : List ℚ → List ℚ
  | [] => []
  | x :: xs => x :: (cumsum xs).map (fun y => x + y)

/-- The reverse cumulative sum `np.cumsum(x[::-1])[::-1]`. -/
def revCumsum (l : List ℚ) : List ℚ := (cumsum l.reverse).reverse

/-- The effective weights of `compute_curve`: `weights=None` defaults to the
scalar `1.0`, broadcast over the labels. -/
def prWeights (labels : List ℚ) (weights : Option (List ℚ)) : List ℚ :=
  weights.getD (List.replicate labels.length 1)

/-- `bucket_indices = np.int32(np.floor(predictions * (num_thresholds - 1)))`,
cast back to the rationals fed into `np.histogram`. -/
def prBucketIndices (predictions : List ℚ) (nt : ℕ) : List ℚ :=
  predictions.map (fun p => ((int32cast ⌊p * ((nt : ℚ) - 1)⌋ : ℤ) : ℚ))

/-- The weighted true-positive histogram of `compute_curve` (weights
`labels * weights`, range `(0, num_thresholds - 1)`, adjusted by numpy when
degenerate). -/
def tpBuckets (labels predictions : List ℚ) (nt : ℕ)
    (weights : Option (List ℚ)) : List ℚ :=
  npHistogramWeighted (prBucketIndices predictions nt)
    ((labels.zip (prWeights labels weights)).map (fun q => q.1 * q.2)) nt
    (npHistRange 0 ((nt : ℚ) - 1)).1 (npHistRange 0 ((nt : ℚ) - 1)).2

/-- The weighted false-positive histogram of `compute_curve` (weights
`(1 - labels) * weights`). -/
def fpBuckets (labels predictions : List ℚ) (nt : ℕ)
    (weights : Option (List ℚ)) : List ℚ :=
  npHistogramWeighted (prBucketIndices predictions nt)
    ((labels.zip (prWeights labels weights)).map (fun q => (1 - q.1) * q.2)) nt
    (npHistRange 0 ((nt : ℚ) - 1)).1 (npHistRange 0 ((nt : ℚ) - 1)).2

/-- The stacked rows `[tp, fp, tn, fn, precision, recall]` of `compute_curve`
(`_MINIMUM_COUNT = 1e-7`). -/
def prRows (labels predictions : List ℚ) (nt : ℕ)
    (weights : Option (List ℚ)) : List (List ℚ) :=
  let tp := revCumsum (tpBuckets labels predictions nt weights)
  let fp := revCumsum (fpBuckets labels predictions nt weights)
  let tn := fp.map (fun v => fp.headD 0 - v)
  let fn := tp.map (fun v => tp.headD 0 - v)
  let precision := (tp.zip fp).map (fun q => q.1 / max (1/10^7) (q.1 + q.2))
  let recl := (tp.zip fn).map (fun q => q.1 / max (1/10^7) (q.1 + q.2))
  [tp, fp, tn, fn, precision, recl]

/-- `compute_curve(labels, predictions, num_thresholds, weights)`.
Mismatched operand lengths and a non-positive bin count raise inside numpy;
both are modelled as errors. -/
def compute_curve (labels predictions : List ℚ) (num_thresholds : ℕ)
    (weights : Option (List ℚ)) : Except String (List (List ℚ)) :=
  if labels.length = predictions.length
      ∧ (prWeights labels weights).length = labels.length then
    if 1 ≤ num_thresholds then
      .ok (prRows labels predictions num_thresholds weights)
    else .error "ValueError: bins must be a positive integer"
  else .error "ValueError: operands could not be broadcast together"

/-- The tensor record emitted for a PR curve: the pr_curves plugin metadata
(`PrCurvePluginData(version=0, num_thresholds)`), the two tensor dimensions
and the flattened float values. -/
structure PrCurveSummary where
  tag : String
  num_thresholds : ℕ
  dim0 : ℕ
  dim1 : ℕ
  float_val : List ℚ
deriving DecidableEq

/-- `pr_curve_raw`: clamp `num_thresholds` above 127 down to 127, `np.stack`
the six caller-supplied rows (which raises unless they all have the same
length), and emit the tensor with plugin metadata. -/
def pr_curve_raw (tag : String) (tp fp tn fn precision recl : List ℚ)
    (num_thresholds : ℕ) : Except String PrCurveSummary :=
  let nt := if 127 < num_thresholds then 127 else num_thresholds
  if fp.length = tp.length ∧ tn.length = tp.length ∧ fn.length = tp.length
      ∧ precision.length = tp.length ∧ recl.length = tp.length then
    let data := [tp, fp, tn, fn, precision, recl]
    .ok { tag := tag, num_thresholds := nt, dim0 := data.length,
          dim1 := tp.length, float_val := data.flatten }
  else .error "ValueError: all input arrays must have the same shape"

/-- `pr_curve`: clamp `num_thresholds` with `min(·, 127)`, compute the curve
and emit it with plugin metadata; the tensor dimensions come from
`data.shape`. -/
def pr_curve (tag : String) (labels predictions : List ℚ) (num_thresholds : ℕ)
    (weights : Option (List ℚ)) : Except String PrCurveSummary :=
  let nt := min num_thresholds 127
  match compute_curve labels predictions nt weights with
  | .error e => .error e
  | .ok rows =>
    .ok { tag := tag, num_thresholds := nt, dim0 := rows.length,
          dim1 := (rows.headD []).length, float_val := rows.flatten }

theorem cumsum_length (l : List ℚ) : (cumsum l).length = l.length := by
  induction l with
  | nil => rfl
  | cons x xs ih => simp [cumsum, ih]

theorem revCumsum_length (l : List ℚ) : (revCumsum l).length = l.length := by
  unfold revCumsum
  rw [List.length_reverse, cumsum_length, List.length_reverse]

theorem npHistogramWeighted_length (values ws : List ℚ) (bins : ℕ) (lo hi : ℚ) :
    (npHistogramWeighted values ws bins lo hi).length = bins := by
  simp [npHistogramWeighted]

theorem tpBuckets_length (labels predictions : List ℚ) (nt : ℕ)
    (weights : Option (List ℚ)) :
    (tpBuckets labels predictions nt weights).length = nt :=
  npHistogramWeighted_length _ _ _ _ _

theorem prRows_headD (labels predictions : List ℚ) (nt : ℕ)
    (weights : Option (List ℚ)) :
    (prRows labels predictions nt weights).headD []
      = revCumsum (tpBuckets labels predictions nt weights) := rfl

theorem prRows_getD_zero (labels predictions : List ℚ) (nt : ℕ)
    (weights : Option (List ℚ)) :
    (prRows labels predictions nt weights).getD 0 []
      = revCumsum (tpBuckets labels predictions nt weights) := rfl

theorem prRows_getD_one (labels predictions : List ℚ) (nt : ℕ)
    (weights : Option (List ℚ)) :
    (prRows labels predictions nt weights).getD 1 []
      = revCumsum (fpBuckets labels predictions nt weights) := rfl

theorem compute_curve_rows {labels predictions : List ℚ} {nt : ℕ}
    {weights : Option (List ℚ)} {rows : List (List ℚ)}
    (hok : compute_curve labels predictions nt weights = .ok rows) :
    rows = prRows labels predictions nt weights := by
  unfold compute_curve at hok
  by_cases h1 : labels.length = predictions.length
      ∧ (prWeights labels weights).length = labels.length
  · rw [if_pos h1] at hok
    by_cases h2 : 1 ≤ nt
    · rw [if_pos h2] at hok
      injection hok with hok2
      exact hok2.symm
    · rw [if_neg h2] at hok
      exact Except.noConfusion hok
  · rw [if_neg h1] at hok
    exact Except.noConfusion hok

/-! ## C6: the 127-threshold clamp -/

/-- C6: for both PR-curve entry points, a requested `num_thresholds` above 127
is silently clamped to 127 — the call behaves exactly as if 127 had been
requested, no error is introduced by the clamp, and every successful result
carries `num_thresholds = 127` in its plugin metadata (for the computed
entry point the data width is 127 as well). -/
theorem pr_curve_threshold_clamp (tag : String)
    (tp fp tn fn precision recl : List ℚ)
    (labels predictions : List ℚ) (weights : Option (List ℚ))
    (nt : ℕ) (hnt : 127 < nt) :
    pr_curve_raw tag tp fp tn fn precision recl nt
      = pr_curve_raw tag tp fp tn fn precision recl 127 ∧
    pr_curve tag labels predictions nt weights
      = pr_curve tag labels predictions 127 weights ∧
    (∀ s, pr_curve_raw tag tp fp tn fn precision recl nt = .ok s →
      s.num_thresholds = 127) ∧
    (∀ s, pr_curve tag labels predictions nt weights = .ok s →
      s.num_thresholds = 127 ∧ s.dim1 = 127) := by
  have hclamp : (if 127 < nt then 127 else nt) = 127 := if_pos hnt
  have hmin : min nt 127 = 127 := min_eq_right (by omega)
  refine ⟨?_, ?_, ?_, ?_⟩
  · unfold pr_curve_raw
    rw [hclamp, if_neg (by omega : ¬ (127:ℕ) < 127)]
  · unfold pr_curve
    rw [hmin, min_self]
  · intro s hs
    unfold pr_curve_raw at hs
    rw [hclamp] at hs
    by_cases hlen : fp.length = tp.length ∧ tn.length = tp.length
        ∧ fn.length = tp.length ∧ precision.length = tp.length
        ∧ recl.length = tp.length
    · rw [if_pos hlen] at hs
      injection hs with hs2
      rw [← hs2]
    · rw [if_neg hlen] at hs
      exact Except.noConfusion hs
  · intro s hs
    unfold pr_curve at hs
    rw [hmin] at hs
    cases hcc : compute_curve labels predictions 127 weights with
    | error e =>
      simp only [hcc] at hs
      exact Except.noConfusion hs
    | ok rows =>
      simp only [hcc] at hs
      injection hs with hs2
      rw [← hs2]
      refine ⟨rfl, ?_⟩
      show (rows.headD []).length = 127
      rw [compute_curve_rows hcc, prRows_headD, revCumsum_length, tpBuckets_length]

/-- C6 witness: both entry points at the concrete request `num_thresholds =
128` behave as at 127. -/
theorem pr_curve_threshold_clamp_witness :
    pr_curve_raw "p" [] [] [] [] [] [] 128 = pr_curve_raw "p" [] [] [] [] [] [] 127 ∧
    pr_curve "p" [] [] 128 none = pr_curve "p" [] [] 127 none :=
  ⟨(pr_curve_threshold_clamp "p" [] [] [] [] [] [] [] [] none 128 (by norm_num)).1,
   (pr_curve_threshold_clamp "p" [] [] [] [] [] [] [] [] none 128 (by norm_num)).2.1⟩

/-! ## C7: monotonicity of the reverse cumulative sums -/

theorem cumsum_nonneg {l : List ℚ} (h : ∀ x ∈ l, 0 ≤ x) :
    ∀ x ∈ cumsum l, 0 ≤ x := by
  induction l with
  | nil => simp [cumsum]
  | cons a t ih =>
    intro x hx
    rw [show cumsum (a :: t) = a :: (cumsum t).map (fun y => a + y) from rfl] at hx
    rcases List.mem_cons.mp hx with rfl | hx2
    · exact h x (List.mem_cons_self _ _)
    · rcases List.mem_map.mp hx2 with ⟨y, hy, rfl⟩
      have h1 := h a (List.mem_cons_self _ _)
      have h2 := ih (fun z hz => h z (List.mem_cons_of_mem a hz)) y hy
      linarith

theorem cumsum_chain {l : List ℚ} (h : ∀ x ∈ l, 0 ≤ x) :
    List.Chain' (fun a b => a ≤ b) (cumsum l) := by
  induction l with
  | nil => simp [cumsum]
  | cons a t ih =>
    have ht : ∀ z ∈ t, 0 ≤ z := fun z hz => h z (List.mem_cons_of_mem a hz)
    have hmap : List.Chain' (fun x y => x ≤ y)
        ((cumsum t).map (fun y => a + y)) := by
      rw [List.chain'_map]
      refine List.Chain'.imp ?_ (ih ht)
      intro x y hxy
      linarith
    show List.Chain' (fun x y => x ≤ y) (a :: (cumsum t).map (fun y => a + y))
    cases hc : cumsum t with
    | nil => simp [hc]
    | cons c0 cs =>
      rw [hc] at hmap
      rw [show ((c0 :: cs).map (fun y => a + y))
          = (a + c0) :: cs.map (fun y => a + y) from rfl] at hmap ⊢
      rw [List.chain'_cons]
      refine ⟨?_, hmap⟩
      have hc0 : 0 ≤ c0 :=
        cumsum_nonneg ht c0 (by rw [hc]; exact List.mem_cons_self _ _)
      linarith

theorem revCumsum_nonneg {l : List ℚ} (h : ∀ x ∈ l, 0 ≤ x) :
    ∀ x ∈ revCumsum l, 0 ≤ x := by
  intro x hx
  unfold revCumsum at hx
  exact cumsum_nonneg (fun z hz => h z (List.mem_reverse.mp hz)) x
    (List.mem_reverse.mp hx)

theorem revCumsum_chain {l : List ℚ} (h : ∀ x ∈ l, 0 ≤ x) :
    List.Chain' (fun a b => b ≤ a) (revCumsum l) := by
  unfold revCumsum
  rw [List.chain'_reverse]
  refine List.Chain'.imp ?_
    (cumsum_chain (fun x hx => h x (List.mem_reverse.mp hx)))
  intro x y hxy
  exact hxy

theorem npHistogramWeighted_nonneg {values ws : List ℚ} {bins : ℕ} {lo hi : ℚ}
    (h : ∀ p ∈ values.zip ws, 0 ≤ p.2) :
    ∀ x ∈ npHistogramWeighted values ws bins lo hi, 0 ≤ x := by
  intro x hx
  unfold npHistogramWeighted at hx
  rcases List.mem_map.mp hx with ⟨k, _, rfl⟩
  refine List.sum_nonneg ?_
  intro y hy
  rcases List.mem_map.mp hy with ⟨p, hp, rfl⟩
  by_cases hc : npBinIdx lo hi bins p.1 = some k
  · rw [if_pos hc]
    exact h p hp
  · rw [if_neg hc]

theorem tpBuckets_nonneg {labels predictions : List ℚ} {nt : ℕ}
    {weights : Option (List ℚ)}
    (hlab : ∀ l ∈ labels, l = 0 ∨ l = 1)
    (hw : ∀ w ∈ prWeights labels weights, 0 ≤ w) :
    ∀ x ∈ tpBuckets labels predictions nt weights, 0 ≤ x := by
  refine npHistogramWeighted_nonneg ?_
  rintro ⟨v, w⟩ hp
  have hw2 := (List.of_mem_zip hp).2
  rcases List.mem_map.mp hw2 with ⟨q, hq, hqe⟩
  obtain ⟨ql, qw⟩ := q
  have h1 := (List.of_mem_zip hq).1
  have h2 := hw qw (List.of_mem_zip hq).2
  show (0:ℚ) ≤ w
  rw [← hqe]
  rcases hlab ql h1 with rfl | rfl
  · simp
  · simpa using h2

theorem fpBuckets_nonneg {labels predictions : List ℚ} {nt : ℕ}
    {weights : Option (List ℚ)}
    (hlab : ∀ l ∈ labels, l = 0 ∨ l = 1)
    (hw : ∀ w ∈ prWeights labels weights, 0 ≤ w) :
    ∀ x ∈ fpBuckets labels predictions nt weights, 0 ≤ x := by
  refine npHistogramWeighted_nonneg ?_
  rintro ⟨v, w⟩ hp
  have hw2 := (List.of_mem_zip hp).2
  rcases List.mem_map.mp hw2 with ⟨q, hq, hqe⟩
  obtain ⟨ql, qw⟩ := q
  have h1 := (List.of_mem_zip hq).1
  have h2 := hw qw (List.of_mem_zip hq).2
  show (0:ℚ) ≤ w
  rw [← hqe]
  rcases hlab ql h1 with rfl | rfl
  · simpa using h2
  · simp

/-- C7: for labels in `{0,1}` and non-negative (or default) weights, the `tp`
and `fp` rows computed by `compute_curve` are non-increasing and
non-negative. -/
theorem pr_curve_monotone (labels predictions : List ℚ) (nt : ℕ)
    (weights : Option (List ℚ)) (rows : List (List ℚ))
    (hlab : ∀ l ∈ labels, l = 0 ∨ l = 1)
    (hw : ∀ w ∈ prWeights labels weights, 0 ≤ w)
    (hok : compute_curve labels predictions nt weights = .ok rows) :
    List.Chain' (fun a b => b ≤ a) (rows.getD 0 []) ∧
    (∀ x ∈ rows.getD 0 [], 0 ≤ x) ∧
    List.Chain' (fun a b => b ≤ a) (rows.getD 1 []) ∧
    (∀ x ∈ rows.getD 1 [], 0 ≤ x) := by
  rw [compute_curve_rows hok, prRows_getD_zero, prRows_getD_one]
  exact ⟨revCumsum_chain (tpBuckets_nonneg hlab hw),
         revCumsum_nonneg (tpBuckets_nonneg hlab hw),
         revCumsum_chain (fpBuckets_nonneg hlab hw),
         revCumsum_nonneg (fpBuckets_nonneg hlab hw)⟩

/-- C7 witness: the monotonicity statement at the concrete call
`compute_curve [1] [0] 1 none`. -/
theorem pr_curve_monotone_witness :
    List.Chain' (fun a b => b ≤ a) ((prRows [1] [0] 1 none).getD 0 []) ∧
    List.Chain' (fun a b => b ≤ a) ((prRows [1] [0] 1 none).getD 1 []) :=
  have h := pr_curve_monotone [1] [0] 1 none (prRows [1] [0] 1 none)
    (by intro l hl; rw [List.mem_singleton] at hl; exact Or.inr hl)
    (by
      intro w hw
      have : w = 1 := by simpa [prWeights] using hw
      rw [this]
      norm_num)
    (by unfold compute_curve; rw [if_pos ⟨rfl, rfl⟩, if_pos (by norm_num)])
  ⟨h.1, h.2.2.1⟩

/-! ## Images and video -/

/-- The `Summary.Image` proto: dimensions, channel count, encoded bytes. -/
structure ImageProto where
  height : ℕ
  width : ℕ
  colorspace : ℕ
  encoded_image_string : List ℕ
deriving DecidableEq

/-- The external codec environment: whether `import moviepy` and
`from moviepy import editor` succeed, and the opaque byte outputs of the
external PIL PNG encoder (image, rescale, optional boxes) and the moviepy
GIF encoder (tensor, fps). -/
structure CodecEnv where
  moviepy_installed : Bool
  editor_importable : Bool
  png_bytes : NpArray → ℚ → Option NpArray → List ℕ
  gif_bytes : NpArray → ℚ → List ℕ

/-- `make_image(tensor, rescale, rois)`: unpack `height, width, channel` from
the 3-D shape (any other rank raises), optionally draw boxes, and delegate
PNG encoding (resizing included) to PIL; the recorded height and width are
the pre-rescale ones. -/
def make_image (env : CodecEnv) (t : NpArray) (rescale : ℚ)
    (rois : Option NpArray) : Except String ImageProto :=
  match t.shape with
  | [h, w, c] =>
    .ok { height := h, width := w, colorspace := c,
          encoded_image_string := env.png_bytes t rescale rois }
  | _ => .error "ValueError: cannot unpack tensor.shape into height, width, channel"

structure ImageSummary where
  tag : String
  image : ImageProto
deriving DecidableEq

/-- `image(tag, tensor, rescale)`: clean the tag, rescale pixel values to
uint8, and encode. -/
def image (env : CodecEnv) (tag : String) (t : NpArray) (rescale : ℚ) :
    Except String ImageSummary :=
  let tag2 := clean_tag tag
  match make_image env (scaleToUint8 t) rescale none with
  | .error e => .error e
  | .ok img => .ok { tag := tag2, image := img }

/-- `tensor_boxes[:, 1:5]`: keep columns `a..b-1` of a 2-D array (any other
rank raises inside numpy). -/
def slice_cols (t : NpArray) (a b : ℕ) : Except String NpArray :=
  match t.shape with
  | [n, m] =>
    .ok { shape := [n, min b m - min a m],
          data := ((List.range n).map
            (fun r => (((t.data.drop (r * m)).take m).drop a).take (b - a))).flatten,
          dtype := t.dtype }
  | _ => .error "IndexError: too many indices for array"

/-- `image_boxes(tag, tensor_image, tensor_boxes, rescale)`: rescale the
image, take box coordinates from columns 1..4, and encode with the boxes
drawn; the tag is used as given (no sanitization). -/
def image_boxes (env : CodecEnv) (tag : String) (ti tb : NpArray)
    (rescale : ℚ) : Except String ImageSummary :=
  match slice_cols tb 1 5 with
  | .error e => .error e
  | .ok rois =>
    match make_image env (scaleToUint8 ti) rescale (some rois) with
    | .error e => .error e
    | .ok img => .ok { tag := tag, image := img }

/-- `make_video(tensor, fps)`: when `import moviepy` or
`from moviepy import editor` fails, print a diagnostic and return `None`;
otherwise unpack the 4-D `(t, h, w, c)` shape, write a GIF through moviepy
and wrap the bytes.  The result carries the optional image proto together
with the printed diagnostics. -/
def make_video (env : CodecEnv) (t : NpArray) (fps : ℚ) :
    Except String (Option ImageProto × List String) :=
  if env.moviepy_installed = false then
    .ok (none, ["add_video needs package moviepy"])
  else if env.editor_importable = false then
    .ok (none, ["moviepy is installed, but cannot import moviepy.editor. Some packages could be missing [imageio, requests]"])
  else
    match t.shape with
    | [_t, h, w, c] =>
      .ok (some { height := h, width := w, colorspace := c,
                  encoded_image_string := env.gif_bytes t fps }, [])
    | _ => .error "ValueError: cannot unpack tensor.shape into t, h, w, c"

structure VideoSummary where
  tag : String
  image : Option ImageProto
deriving DecidableEq

/-- `video(tag, tensor, fps)`: clean the tag, rescale to uint8, delegate to
`make_video`; a `None` result (missing codec) still yields a summary whose
image payload is simply absent. -/
def video (env : CodecEnv) (tag : String) (t : NpArray) (fps : ℚ) :
    Except String VideoSummary :=
  let tag2 := clean_tag tag
  match make_video env (scaleToUint8 t) fps with
  | .error e => .error e
  | .ok (img, _) => .ok { tag := tag2, image := img }

/-! ## `text` and the `histogram` entry point -/

structure TextSummary where
  tag : String
  string_val : String
  plugin_name : String
deriving DecidableEq

/-- `text(tag, text)`: no sanitization; the emitted tag is the given tag with
the fixed suffix `/text_summary` appended; the payload is the UTF-8 text as a
string tensor with `text` plugin metadata. -/
def text (tag : String) (txt : String) : TextSummary :=
  { tag := tag ++ "/text_summary", string_val := txt, plugin_name := "text" }

structure HistSummary where
  tag : String
  histo : HistogramProto
deriving DecidableEq

/-- `histogram(name, values, bins)`: clean the tag and wrap
`make_histogram`. -/
def histogram (name : String) (values : List ℚ) (bins : ℕ) :
    Except String HistSummary :=
  let name2 := clean_tag name
  match make_histogram values bins with
  | .error e => .error e
  | .ok h => .ok { tag := name2, histo := h }

/-! ## C9: video without moviepy -/

/-- C9: when moviepy (or its editor submodule) is unavailable, `make_video`
does not raise: it returns no image proto together with a printed diagnostic,
and `video` still returns a summary (with the image payload absent) to its
caller. -/
theorem video_missing_codec (env : CodecEnv) (tag : String) (t : NpArray)
    (fps : ℚ)
    (h : env.moviepy_installed = false ∨ env.editor_importable = false) :
    (∃ msgs, make_video env (scaleToUint8 t) fps = .ok (none, msgs) ∧ msgs ≠ []) ∧
    video env tag t fps = .ok { tag := clean_tag tag, image := none } := by
  have hmv : ∃ msgs, make_video env (scaleToUint8 t) fps = .ok (none, msgs)
      ∧ msgs ≠ [] := by
    by_cases hm : env.moviepy_installed = false
    · refine ⟨["add_video needs package moviepy"], ?_, by simp⟩
      unfold make_video
      rw [if_pos hm]
    · have he : env.editor_importable = false := by
        rcases h with h | h
        · exact absurd h hm
        · exact h
      refine ⟨["moviepy is installed, but cannot import moviepy.editor. Some packages could be missing [imageio, requests]"], ?_, by simp⟩
      unfold make_video
      rw [if_neg hm, if_pos he]
  rcases hmv with ⟨msgs, hmv2, hne⟩
  refine ⟨⟨msgs, hmv2, hne⟩, ?_⟩
  unfold video
  simp only [hmv2]

/-- C9 witness: a concrete environment without moviepy. -/
theorem video_missing_codec_witness :
    video { moviepy_installed := false, editor_importable := true,
            png_bytes := fun _ _ _ => [], gif_bytes := fun _ _ => [] }
      "v" { shape := [1, 2, 2, 3], data := [], dtype := "float64" } 4
      = .ok { tag := clean_tag "v", image := none } :=
  (video_missing_codec
    { moviepy_installed := false, editor_importable := true,
      png_bytes := fun _ _ _ => [], gif_bytes := fun _ _ => [] }
    "v" { shape := [1, 2, 2, 3], data := [], dtype := "float64" } 4
    (Or.inl rfl)).2

/-! ## C10: which entry points sanitize the tag -/

/-- C10: `audio`, `image_boxes`, `pr_curve`, `pr_curve_raw` and `text` emit
the caller tag unchanged (`text` appends the fixed `/text_summary` suffix);
only `scalar`, `histogram`, `image` and `video` emit the sanitized tag. -/
theorem tag_sanitization_coverage (env : CodecEnv) (tag : String)
    (t ti tb tv u : NpArray) (rate rescale fps : ℚ)
    (values tp fp tn fn precision recl labels predictions : List ℚ)
    (bins nt : ℕ) (weights : Option (List ℚ)) (txt : String) :
    (∀ s, audio tag u rate = .ok s → s.tag = tag) ∧
    (∀ s, image_boxes env tag ti tb rescale = .ok s → s.tag = tag) ∧
    (∀ s, pr_curve tag labels predictions nt weights = .ok s → s.tag = tag) ∧
    (∀ s, pr_curve_raw tag tp fp tn fn precision recl nt = .ok s → s.tag = tag) ∧
    (text tag txt).tag = tag ++ "/text_summary" ∧
    (∀ s, scalar tag t = .ok s → s.tag = clean_tag tag) ∧
    (∀ s, histogram tag values bins = .ok s → s.tag = clean_tag tag) ∧
    (∀ s, image env tag ti rescale = .ok s → s.tag = clean_tag tag) ∧
    (∀ s, video env tag tv fps = .ok s → s.tag = clean_tag tag) := by
  refine ⟨?_, ?_, ?_, ?_, rfl, ?_, ?_, ?_, ?_⟩ <;>
    (intro s hs
     first
       | simp only [audio] at hs
       | simp only [image_boxes] at hs
       | simp only [pr_curve] at hs
       | simp only [pr_curve_raw] at hs
       | simp only [scalar] at hs
       | simp only [histogram] at hs
       | simp only [image] at hs
       | simp only [video] at hs
     repeat' split at hs
     all_goals
       first
         | exact Except.noConfusion hs
         | (injection hs with h2; rw [← h2]))

/-- C10 witness: `text` and `audio` keep the tag `"a"` unchanged at concrete
inputs. -/
theorem tag_sanitization_coverage_witness :
    (text "a" "hello").tag = "a" ++ "/text_summary" ∧ audioExample.tag = "a" :=
  have h := tag_sanitization_coverage
    { moviepy_installed := true, editor_importable := true,
      png_bytes := fun _ _ _ => [], gif_bytes := fun _ _ => [] } "a"
    { shape := [], data := [0], dtype := "float64" }
    { shape := [1, 1, 3], data := [0, 0, 0], dtype := "float64" }
    { shape := [1, 5], data := [0, 0, 0, 0, 0], dtype := "float64" }
    { shape := [1, 1, 1, 1], data := [0], dtype := "float64" }
    { shape := [2], data := [1/2, -1/3], dtype := "float64" }
    44100 1 4 [] [] [] [] [] [] [] [] [] 1 1 none "hello"
  ⟨h.2.2.2.2.1, h.1 audioExample audio_example⟩

end TensorboardX
